import Mathlib

/-!
Verification of the fuzzcheck core: shallow embedding of
`src/fuzzcheck/src/artifacts_pool.rs` and
`src/fuzzcheck/src/code_coverage_sensor/mod.rs`, with theorems about the
artifact pool's admission algorithm, the test-failure sensor and the
coverage-sensor feature iteration.

Machine integers (`u64`, `usize`, `u8`) are modelled as `Nat`.
Complexities (`f64` in the source) are modelled as `Rat`: the pool only
compares complexities with `>` and `==`, and callers are expected to pass
canonical (non-NaN) complexities.
Rust panics are modelled by the `RunOutcome.crash` constructor, and the
`fastrand` draws of `get_random_index` are passed in explicitly as `Nat`
seeds (a draw `rng.usize(0..n)` becomes `r % n`, crashing when `n = 0`
exactly as `fastrand` panics on an empty range).
-/

namespace Fuzzcheck

/-- `const NBR_ARTIFACTS_PER_ERROR_AND_CPLX: usize = 8` -/
def NBR_ARTIFACTS_PER_ERROR_AND_CPLX : Nat := 8

/-- `struct TestFailure { display: String, id: u64 }` -/
structure TestFailure where
  display : String
  id : Nat
deriving DecidableEq

/-- `struct TestFailureSensor { error: Option<TestFailure> }` -/
structure TestFailureSensor where
  error : Option TestFailure
deriving DecidableEq

/-- `struct Input<T> { generation: usize, data: T }` -/
structure Input (T : Type) where
  generation : Nat
  data : T
deriving DecidableEq

/-- `struct ArtifactListForError<T> { cplx: f64, inputs: Vec<Input<T>> }` -/
structure ArtifactListForError (T : Type) where
  cplx : Rat
  inputs : List (Input T)
deriving DecidableEq

/-- `struct ArftifactList<T> { error: TestFailure, inputs: Vec<ArtifactListForError<T>> }`
(the source spells the name with the transposed `ft`). -/
structure ArftifactList (T : Type) where
  error : TestFailure
  inputs : List (ArtifactListForError T)
deriving DecidableEq

/-- `struct ArtifactsPool<T> { name: String, inputs: Vec<ArftifactList<T>>, .. }`
(the `Stats` field is an empty struct and the rng is passed explicitly). -/
structure ArtifactsPool (T : Type) where
  name : String
  inputs : List (ArftifactList T)
deriving DecidableEq

/-- `type Index = (usize, usize, usize)` -/
abbrev PoolIndex : Type := Nat × Nat × Nat

/-- The `PathBuf` built by `process`: `<pool name>/<error id>/<complexity
formatted to four decimals>`, kept as its three components. -/
structure DeltaPath where
  pool_name : String
  error_id : Nat
  cplx : Rat
deriving DecidableEq

/-- `CorpusDelta { path, add: Option<(&T, Index)>, remove: Vec<Index> }` -/
structure CorpusDelta (T : Type) where
  path : DeltaPath
  add : Option (T × PoolIndex)
  remove : List PoolIndex
deriving DecidableEq

/-- `crate::mutators::either::Either` -/
inductive Either (α β : Type) where
  | left (a : α)
  | right (b : β)
deriving DecidableEq

/-- The classification enum local to `process`. -/
inductive PositionOfNewInput where
  | newError
  | existingErrorNewCplx (i : Nat)
  | existingErrorAndCplx (i : Nat)
deriving DecidableEq

/-- Result of a Rust computation that may panic: `crash` models a panic,
`ok` a normal return. -/
inductive RunOutcome (α : Type) where
  | crash (msg : String)
  | ok (a : α)
deriving DecidableEq

/-- `Iterator::position`: index of the first element satisfying the
predicate. -/
def position (pr : α → Bool) : List α → Option Nat
  | [] => none
  | x :: xs => if pr x then some 0 else (position pr xs).map (· + 1)

/-- `ArtifactsPool::get`: `&self.inputs[idx.0].inputs[idx.1].inputs[idx.2].data`.
The source indexing panics out of range; `default` stands for the
unreachable panic value. -/
def ArtifactsPool.get [Inhabited T] (p : ArtifactsPool T) (idx : PoolIndex) : T :=
  match ((p.inputs[idx.1]?).bind (fun g => g.inputs[idx.2.1]?)).bind
      (fun b => b.inputs[idx.2.2]?) with
  | some i => i.data
  | none => default

/-- The `is_interesting` computation of `ArtifactsPool::process`
(`artifacts_pool.rs` lines 159-183), deciding where the observed failure
would place the candidate. -/
def classify (p : ArtifactsPool T) (error : TestFailure) (complexity : Rat) :
    Option PositionOfNewInput :=
  match position (fun xs => xs.error.id == error.id) p.inputs with
  | some list_index =>
    match p.inputs[list_index]? with
    | none => none -- unreachable: `position` returns an in-range index
    | some list =>
      match list.inputs.getLast? with
      | some least_complex =>
        if least_complex.cplx > complexity then
          some (PositionOfNewInput.existingErrorNewCplx list_index)
        else if least_complex.cplx = complexity then
          if least_complex.inputs.length < NBR_ARTIFACTS_PER_ERROR_AND_CPLX
              ∧ position (fun xs => xs.error.display == error.display) p.inputs = none then
            some (PositionOfNewInput.existingErrorAndCplx list_index)
          else none
        else none
      | none => some (PositionOfNewInput.existingErrorNewCplx list_index)
  | none => some PositionOfNewInput.newError

/-- The `let data = match get_input_ref { .. }` step of `process`: clone an
existing pool input or the external borrow. -/
def insertData [Inhabited T] (p : ArtifactsPool T) (get_input_ref : Either PoolIndex T) : T :=
  match get_input_ref with
  | Either.left x => p.get x
  | Either.right x => x

/-- The admission half of `ArtifactsPool::process` (lines 184-239): clone
the candidate, insert it at the classified position, and build the
`CorpusDelta` handed to the event handler. -/
def insertAt [Inhabited T] (p : ArtifactsPool T) (error : TestFailure)
    (get_input_ref : Either PoolIndex T) (complexity : Rat)
    (pos : PositionOfNewInput) : ArtifactsPool T × Option (CorpusDelta T) :=
  let data : T := insertData p get_input_ref
  let input : Input T := ⟨0, data⟩
  let path : DeltaPath := ⟨p.name, error.id, complexity⟩
  match pos with
  | PositionOfNewInput.newError =>
    let p' : ArtifactsPool T :=
      { p with inputs := p.inputs ++ [⟨error, [⟨complexity, [input]⟩]⟩] }
    (p', some ⟨path, some (data, (p.inputs.length, 0, 0)), []⟩)
  | PositionOfNewInput.existingErrorNewCplx error_idx =>
    match p.inputs[error_idx]? with
    | none => (p, none) -- unreachable: the classification found this index
    | some g =>
      let g' : ArftifactList T := { g with inputs := g.inputs ++ [⟨complexity, [input]⟩] }
      let p' : ArtifactsPool T := { p with inputs := p.inputs.set error_idx g' }
      (p', some ⟨path, some (data, (error_idx, g'.inputs.length - 1, 0)), []⟩)
  | PositionOfNewInput.existingErrorAndCplx error_idx =>
    match p.inputs[error_idx]? with
    | none => (p, none) -- unreachable: the classification found this index
    | some g =>
      match g.inputs.getLast? with
      | none => (p, none) -- unreachable: the classification inspected the last bucket
      | some lastB =>
        let lastB' : ArtifactListForError T := { lastB with inputs := lastB.inputs ++ [input] }
        let g' : ArftifactList T := { g with inputs := g.inputs.dropLast ++ [lastB'] }
        let p' : ArtifactsPool T := { p with inputs := p.inputs.set error_idx g' }
        (p', some ⟨path, some (data, (error_idx, g'.inputs.length - 1, lastB'.inputs.length - 1)), []⟩)

/-- `ArtifactsPool::process`: drain the failure sensor, classify, and admit.
The drained observation arrives as `error?`; the returned `Option
(CorpusDelta T)` is the single event-handler invocation the call makes
(`none` means the handler was never invoked). -/
def process [Inhabited T] (p : ArtifactsPool T) (error? : Option TestFailure)
    (get_input_ref : Either PoolIndex T) (complexity : Rat) :
    ArtifactsPool T × Option (CorpusDelta T) :=
  match error? with
  | none => (p, none)
  | some error =>
    match classify p error complexity with
    | none => (p, none)
    | some pos => insertAt p error get_input_ref complexity pos

/-- `ArtifactsPool::new(name, size)`: empty pool (the `size` parameter is
ignored by the source). -/
def emptyPool (T : Type) (name : String) : ArtifactsPool T := ⟨name, []⟩

/-- One driver iteration offered to the artifact pool: the sensor
observation, the input reference, and the candidate complexity. -/
structure Call (T : Type) where
  error : Option TestFailure
  input : Either PoolIndex T
  cplx : Rat
deriving DecidableEq

/-- The pool after one `process` call. -/
def stepPool [Inhabited T] (p : ArtifactsPool T) (c : Call T) : ArtifactsPool T :=
  (process p c.error c.input c.cplx).1

/-- The pool reached from `ArtifactsPool::new` by a sequence of `process`
calls. -/
def runPool [Inhabited T] (name : String) (calls : List (Call T)) : ArtifactsPool T :=
  calls.foldl stepPool (emptyPool T name)

/-- The `(error id, complexity)` entries admitted by one `process` call:
one entry when the call emitted a delta, none otherwise. -/
def deltaLog [Inhabited T] (p : ArtifactsPool T) (c : Call T) : List (Nat × Rat) :=
  match (process p c.error c.input c.cplx).2, c.error with
  | some _, some e => [(e.id, c.cplx)]
  | _, _ => []

/-- All `(error id, complexity)` pairs admitted along a sequence of
`process` calls starting from pool `p`. -/
def admittedLog [Inhabited T] (p : ArtifactsPool T) : List (Call T) → List (Nat × Rat)
  | [] => []
  | c :: cs => deltaLog p c ++ admittedLog (stepPool p c) cs

/-- The complexities admitted for one error id. -/
def admittedFor (log : List (Nat × Rat)) (eid : Nat) : List Rat :=
  (log.filter (fun e => e.1 == eid)).map (·.2)

/-- Minimum of a list of complexities (the spec's "min of all admitted
complexities"). -/
def minRat? : List Rat → Option Rat
  | [] => none
  | x :: xs =>
    match minRat? xs with
    | none => some x
    | some m => some (min x m)

/-- The complexities of a group's bucket sequence, in order. -/
def bucketCplxs (g : ArftifactList T) : List Rat := g.inputs.map (·.cplx)

/-- `TestFailureSensor::start_recording`: clears the local slot and the
process-wide `TEST_FAILURE` slot. The second component of the argument
and of the result is the process-wide slot. -/
def start_recording (_s : TestFailureSensor) (_test_failure : Option TestFailure) :
    TestFailureSensor × Option TestFailure :=
  (⟨none⟩, none)

/-- `TestFailureSensor::stop_recording`: `self.error = TEST_FAILURE.clone()`.
The local slot receives a clone of the process-wide slot; the
process-wide slot (second component) is left as it was. -/
def stop_recording (_s : TestFailureSensor) (test_failure : Option TestFailure) :
    TestFailureSensor × Option TestFailure :=
  (⟨test_failure⟩, test_failure)

/-- `TestFailureSensor::iterate_over_observations`: `*handler =
std::mem::take(&mut self.error)`. Returns the updated sensor and the
value written through the handler. -/
def iterate_over_observations (s : TestFailureSensor) :
    TestFailureSensor × Option TestFailure :=
  (⟨none⟩, s.error)

/-- `ArtifactsPool::minify` is `todo!()`: it panics with the standard
"not yet implemented" message before touching the pool or invoking the
event handler. A normal return would be `RunOutcome.ok` holding the
`Result<(), std::io::Error>` value. -/
def minify (p : ArtifactsPool T) (_sensor : TestFailureSensor) (_target_len : Nat) :
    RunOutcome (Except String Unit) × ArtifactsPool T :=
  (RunOutcome.crash ("not yet implemented"), p)

/-- Does a `minify` outcome consist of a returned `Err(..)` result (as
opposed to a panic or an `Ok`)? -/
def isErrorReturn : RunOutcome (Except String Unit) → Bool
  | RunOutcome.ok (Except.error _) => true
  | _ => false

/-- `ArtifactsPool::retrieve_after_processing(idx, generation)`. The group
access `self.inputs[idx.0]` is a panicking index; the bucket and input
accesses use `get_mut` and flow into `None`. The generation compared is
`input.data.generation()`, the `TestCase` method, supplied here as
`tcGen`. -/
def retrieve_after_processing (tcGen : T → Nat) (p : ArtifactsPool T)
    (idx : PoolIndex) (generation : Nat) : RunOutcome (Option T) :=
  match p.inputs[idx.1]? with
  | none => RunOutcome.crash ("index out of bounds")
  | some group =>
    match (group.inputs[idx.2.1]?).bind (fun b => b.inputs[idx.2.2]?) with
    | some input =>
      if tcGen input.data = generation then RunOutcome.ok (some input.data)
      else RunOutcome.ok none
    | none => RunOutcome.ok none

/-- `ArtifactsPool::mark_test_case_as_dead_end`:
`self.inputs[idx.0].inputs[idx.1].inputs.remove(idx.2)`. The source
indexing panics out of range; at a valid index the input is removed and
nothing is rebalanced. -/
def mark_test_case_as_dead_end (p : ArtifactsPool T) (idx : PoolIndex) : ArtifactsPool T :=
  match p.inputs[idx.1]? with
  | none => p
  | some g =>
    match g.inputs[idx.2.1]? with
    | none => p
    | some b =>
      let b' : ArtifactListForError T := { b with inputs := b.inputs.eraseIdx idx.2.2 }
      { p with inputs := p.inputs.set idx.1 { g with inputs := g.inputs.set idx.2.1 b' } }

/-- `fastrand::Rng::usize(0..n)`: uniform draw from `0..n`, panicking on an
empty range. The seed `r` selects the value deterministically. -/
def rng_usize (r n : Nat) : RunOutcome Nat :=
  if n = 0 then RunOutcome.crash ("empty range") else RunOutcome.ok (r % n)

/-- `ArtifactsPool::get_random_index` (lines 96-106): uniform over error
groups, then always the last (least-complex) bucket, then uniform within
that bucket. `r1` and `r2` seed the two rng draws. On an empty bucket
list the source's `len() - 1` / indexing fails, modelled by a crash. -/
def get_random_index (p : ArtifactsPool T) (r1 r2 : Nat) : RunOutcome (Option PoolIndex) :=
  if p.inputs.isEmpty then RunOutcome.ok none
  else
    match rng_usize r1 p.inputs.length with
    | RunOutcome.crash m => RunOutcome.crash m
    | RunOutcome.ok error_choice =>
      match p.inputs[error_choice]? with
      | none => RunOutcome.crash ("index out of bounds")
      | some list_for_error =>
        match list_for_error.inputs[list_for_error.inputs.length - 1]? with
        | none => RunOutcome.crash ("index out of bounds")
        | some least_complexity =>
          match rng_usize r2 least_complexity.inputs.length with
          | RunOutcome.crash m => RunOutcome.crash m
          | RunOutcome.ok input_choice =>
            RunOutcome.ok (some (error_choice, list_for_error.inputs.length - 1, input_choice))

/-- The features handed to the pool by the coverage sensor: an edge feature
`Feature::edge(index, counter)` or a compare feature
`Feature::from_instr(InstrFeatureWithoutTag(raw))`. -/
inductive Feature where
  | edge (index : Nat) (counter : Nat)
  | from_instr (raw : Nat)
deriving DecidableEq

/-- Population count of a natural number (the `count_ones` of the source's
fixed-width arguments). -/
def popCount (n : Nat) : Nat :=
  if h : n = 0 then 0 else n % 2 + popCount (n / 2)
decreasing_by exact Nat.div_lt_self (Nat.pos_of_ne_zero h) (by omega)

/-- Modelled from the spec: `Feature::id_offset()` is not part of the
sources under `src/`; the spec fixes only that the low bits hold the
hamming distance, with at least 7 bits for 64-bit compares. -/
def Feature.id_offset : Nat := 7

/-- The pc truncation `pc & 0x2F_FFFF` of the
`make_instr_feature_without_tag` macro. -/
def instr_pc_field (pc : Nat) : Nat := pc &&& 0x2FFFFF

/-- `make_instr_feature_without_tag!(pc, arg1, arg2)`:
`((pc & 0x2F_FFFF) << Feature::id_offset()) | ((arg1 ^ arg2).count_ones())`. -/
def make_instr_feature_without_tag (pc arg1 arg2 : Nat) : Nat :=
  (instr_pc_field pc <<< Feature.id_offset) ||| popCount (arg1 ^^^ arg2)

/-- The per-byte inner loop of `iterate_over_collected_features`: for each
byte of the slice, skip it when zero, otherwise emit
`Feature::edge(start + j, counter)`. -/
def emitNonzero (start : Nat) : List Nat → List Feature
  | [] => []
  | x :: xs => (if x = 0 then [] else [Feature.edge start x]) ++ emitNonzero (start + 1) xs

/-- `CodeCoverageSensor::iterate_over_collected_features` (lines 70-109):
the counter array is processed in 32-byte chunks, a chunk bulk-comparing
equal to zero is skipped, the remainder is scanned per byte, and finally
the drained compare-feature keys are emitted through `from_instr`. The
returned list records the handler invocations in order. -/
def iterate_over_collected_features (counters : List Nat) (features : List Nat) :
    List Feature :=
  (((List.range (counters.length / 32)).map (fun i =>
      let slice := (counters.drop (i * 32)).take 32
      if slice = List.replicate 32 0 then [] else emitNonzero (i * 32) slice)).flatten
    ++ emitNonzero ((counters.length / 32) * 32) (counters.drop ((counters.length / 32) * 32)))
    ++ features.map Feature.from_instr

/-- The specification-side reference semantics: a naive per-byte scan of
the whole counter array (emitting `edge(i, counters[i])` for each nonzero
byte in increasing index order) followed by one `from_instr` emission per
drained compare key. -/
def naive_feature_scan (counters : List Nat) (features : List Nat) : List Feature :=
  emitNonzero 0 counters ++ features.map Feature.from_instr

/-- The body of the chunk loop of `iterate_over_collected_features`, with
an explicit start offset for the emitted edge indices: chunk `i` covers
bytes `i * 32 .. i * 32 + 32` and is skipped when it bulk-compares equal
to the zero chunk. -/
def chunkEmit (counters : List Nat) (start : Nat) (i : Nat) : List Feature :=
  if (counters.drop (i * 32)).take 32 = List.replicate 32 0 then []
  else emitNonzero (start + i * 32) ((counters.drop (i * 32)).take 32)

/-- Decidable form of "the group's last (least-complex) bucket exists and
is non-empty". -/
def lastBucketNonempty (g : ArftifactList T) : Bool :=
  match g.inputs.getLast? with
  | some b => !b.inputs.isEmpty
  | none => false

/-- Per-group invariant, relative to the log of admitted
`(error id, complexity)` pairs: non-empty bucket list, strictly
decreasing complexities, capped buckets, and last complexity equal to the
admitted minimum for the group's id. -/
def GroupInv (log : List (Nat × Rat)) (g : ArftifactList T) : Prop :=
  g.inputs ≠ [] ∧
  List.Chain' (· > ·) (bucketCplxs g) ∧
  (∀ b ∈ g.inputs, b.inputs.length ≤ NBR_ARTIFACTS_PER_ERROR_AND_CPLX) ∧
  (bucketCplxs g).getLast? = minRat? (admittedFor log g.error.id)

/-- Pool invariant: every group satisfies `GroupInv`, every admitted id has
a group, and group ids are pairwise distinct (stated positionally). -/
def PoolInv (p : ArtifactsPool T) (log : List (Nat × Rat)) : Prop :=
  (∀ (i : Nat) (g : ArftifactList T), p.inputs[i]? = some g → GroupInv log g) ∧
  (∀ e ∈ log, ∃ g ∈ p.inputs, g.error.id = e.1) ∧
  (∀ (i j : Nat) (gi gj : ArftifactList T), p.inputs[i]? = some gi →
    p.inputs[j]? = some gj → i ≠ j → gi.error.id ≠ gj.error.id)

/-- The pool after admitting failure id 7, display `"e"`, at complexity 5
into an empty pool. -/
def poolAfter7at5 : ArtifactsPool Nat :=
  (process (emptyPool Nat ("artifacts")) (some ⟨"e", 7⟩) (Either.right 0) 5).1

/-- The pool after admitting failure id 7, display `"e"`, at complexity 10
into an empty pool. -/
def poolP10 : ArtifactsPool Nat :=
  (process (emptyPool Nat ("artifacts")) (some ⟨"e", 7⟩) (Either.right 0) 10).1

/-- Nine calls: one admission of id 7 at complexity 10, then eight further
candidates with the same id and complexity, distinct data, and a display
distinct from the group's. -/
def c2Calls : List (Call Nat) :=
  ⟨some ⟨"e", 7⟩, Either.right 0, 10⟩ ::
    (List.range 8).map (fun k => ⟨some ⟨"x", 7⟩, Either.right (k + 1), 10⟩)

/-- Two admissions for id 7: complexity 10 then complexity 5. -/
def c3Calls : List (Call Nat) :=
  [⟨some ⟨"e", 7⟩, Either.right 0, 10⟩, ⟨some ⟨"e", 7⟩, Either.right 1, 5⟩]

/-- The error group reached by `c3Calls`: buckets at complexities 10 and 5. -/
def groupAfterC3 : ArftifactList Nat :=
  ⟨⟨"e", 7⟩, [⟨10, [⟨0, 0⟩]⟩, ⟨5, [⟨0, 1⟩]⟩]⟩

end Fuzzcheck

namespace Fuzzcheck

/- ------------------------------------------------------------------ -/
/- Helper lemmas                                                       -/
/- ------------------------------------------------------------------ -/

theorem position_eq_none_iff (pr : α → Bool) (l : List α) :
    position pr l = none ↔ ∀ x ∈ l, pr x = false := by
  induction l with
  | nil => simp [position]
  | cons x xs ih =>
    by_cases h : pr x
    · refine iff_of_false (by simp [position, h]) ?_
      intro hall
      exact absurd (hall x (by simp)) (by simp [h])
    · simp [position, h, Option.map_eq_none', ih]

theorem position_some_spec (pr : α → Bool) (l : List α) (i : Nat)
    (h : position pr l = some i) : ∃ x, l[i]? = some x ∧ pr x = true := by
  induction l generalizing i with
  | nil => simp [position] at h
  | cons x xs ih =>
    simp only [position] at h
    split at h
    · rename_i hx
      injection h with h
      subst h
      exact ⟨x, by simp, hx⟩
    · rw [Option.map_eq_some'] at h
      obtain ⟨j, hj, rfl⟩ := h
      obtain ⟨y, hy, hpy⟩ := ih j hj
      exact ⟨y, by simpa using hy, hpy⟩

theorem emitNonzero_replicate_zero (s n : Nat) :
    emitNonzero s (List.replicate n 0) = [] := by
  induction n generalizing s with
  | zero => simp [emitNonzero]
  | succ n ih => simp [List.replicate_succ, emitNonzero, ih]

theorem emitNonzero_append (s : Nat) (l₁ l₂ : List Nat) :
    emitNonzero s (l₁ ++ l₂) = emitNonzero s l₁ ++ emitNonzero (s + l₁.length) l₂ := by
  induction l₁ generalizing s with
  | nil => simp [emitNonzero]
  | cons x xs ih =>
    simp only [List.cons_append, emitNonzero, List.append_eq, ih (s + 1),
      List.append_assoc, List.length_cons]
    have h : s + (xs.length + 1) = s + 1 + xs.length := by omega
    rw [h]

theorem chunk_scan_eq (n : Nat) : ∀ (counters : List Nat) (start : Nat),
    counters.length ≤ n →
    ((List.range (counters.length / 32)).map (chunkEmit counters start)).flatten
      ++ emitNonzero (start + (counters.length / 32) * 32)
          (counters.drop ((counters.length / 32) * 32))
      = emitNonzero start counters := by
  induction n with
  | zero =>
    intro counters start hlen
    have hc : counters = [] := List.length_eq_zero.mp (Nat.le_zero.mp hlen)
    subst hc
    simp [emitNonzero]
  | succ n ih =>
    intro counters start hlen
    by_cases h32 : counters.length < 32
    · have hq : counters.length / 32 = 0 := Nat.div_eq_of_lt h32
      simp [hq]
    · push_neg at h32
      have hq : counters.length / 32 = (counters.length - 32) / 32 + 1 :=
        Nat.div_eq_sub_div (by norm_num) h32
      have hdlen : (counters.drop 32).length = counters.length - 32 := by simp
      have hshift : (chunkEmit counters start) ∘ Nat.succ
          = chunkEmit (counters.drop 32) (start + 32) := by
        funext i
        show chunkEmit counters start (i + 1) = chunkEmit (counters.drop 32) (start + 32) i
        have h1 : (i + 1) * 32 = 32 + i * 32 := by ring
        have h2 : start + (32 + i * 32) = start + 32 + i * 32 := by ring
        simp only [chunkEmit, List.drop_drop, h1, h2]
      rw [hq, List.range_succ_eq_map, List.map_cons, List.map_map, hshift,
        List.flatten_cons, List.append_assoc]
      have h3 : ((counters.length - 32) / 32 + 1) * 32 = 32 + (counters.length - 32) / 32 * 32 := by
        ring
      have h4 : start + (32 + (counters.length - 32) / 32 * 32)
          = start + 32 + (counters.length - 32) / 32 * 32 := by
        ring
      have h5 : counters.drop (32 + (counters.length - 32) / 32 * 32)
          = (counters.drop 32).drop ((counters.length - 32) / 32 * 32) := by
        rw [List.drop_drop]
      rw [h3, h4, h5]
      have hk : (counters.length - 32) / 32 = (counters.drop 32).length / 32 := by
        rw [hdlen]
      rw [hk, ih (counters.drop 32) (start + 32) (by rw [hdlen]; omega)]
      have hF0 : chunkEmit counters start 0 = emitNonzero start (counters.take 32) := by
        simp only [chunkEmit, Nat.zero_mul, List.drop_zero, Nat.add_zero]
        split
        · rename_i hz
          rw [hz, emitNonzero_replicate_zero]
        · rfl
      have htl : (counters.take 32).length = 32 := by
        rw [List.length_take]
        omega
      rw [hF0, show start + 32 = start + (counters.take 32).length by rw [htl],
        ← emitNonzero_append, List.take_append_drop]

/- ------------------------------------------------------------------ -/
/- Claim theorems                                                      -/
/- ------------------------------------------------------------------ -/

/-- Claim C8: the chunked, bulk-skipping traversal of the edge-counter
array (32-byte chunks compared to zero in bulk, plus a per-byte remainder
scan) is extensionally equal to a naive per-byte scan of the whole
array: the handler sees `edge(i, counters[i])` for exactly the indices
with a nonzero counter, in increasing order, followed by one
`from_instr(k)` per drained compare key. -/
theorem iterate_over_collected_features_eq_naive (counters features : List Nat) :
    iterate_over_collected_features counters features
      = naive_feature_scan counters features := by
  have hmap : (fun i =>
      let slice := (counters.drop (i * 32)).take 32
      if slice = List.replicate 32 0 then [] else emitNonzero (i * 32) slice)
      = chunkEmit counters 0 := by
    funext i
    simp [chunkEmit]
  have h := chunk_scan_eq counters.length counters 0 le_rfl
  rw [Nat.zero_add] at h
  rw [iterate_over_collected_features, naive_feature_scan, hmap, h]

/-- Claim C1, counterexample: after admitting id 7 at complexity 5 into an
empty pool, a second `process` call observing id 11 with complexity 5 and
the identical display string does create a new error group and does
invoke the event handler, contrary to the claim. -/
theorem fresh_id_same_display_admitted_counterexample :
    (process poolAfter7at5 (some ⟨"e", 11⟩) (Either.right 1) 5).1.inputs.length = 2 ∧
    (process poolAfter7at5 (some ⟨"e", 11⟩) (Either.right 1) 5).2 ≠ none := by
  decide

/-- Claim C1, amended: a failure whose id matches no existing error group
is always admitted as a new error group and a corpus delta is emitted,
even when some existing group's error has an identical display string:
the display-de-duplication check applies only when extending an existing
id's group at equal complexity. -/
theorem process_fresh_id_creates_new_group {T : Type} [Inhabited T]
    (p : ArtifactsPool T) (error : TestFailure) (x : T) (c : Rat)
    (hid : ∀ g ∈ p.inputs, g.error.id ≠ error.id)
    (_hdisp : ∃ g ∈ p.inputs, g.error.display = error.display) :
    process p (some error) (Either.right x) c
      = ({ p with inputs := p.inputs ++ [⟨error, [⟨c, [⟨0, x⟩]⟩]⟩] },
         some ⟨⟨p.name, error.id, c⟩, some (x, (p.inputs.length, 0, 0)), []⟩) := by
  have hpos : position (fun xs => xs.error.id == error.id) p.inputs = none :=
    (position_eq_none_iff _ _).mpr (fun g hg => by simp [hid g hg])
  simp [process, classify, hpos, insertAt, insertData]

/-- Claim C1, witness: the amended theorem applied to the concrete
scenario of the claim (id 7 admitted at complexity 5, then id 11 at
complexity 5 with the identical display). -/
theorem process_fresh_id_creates_new_group_witness :
    process poolAfter7at5 (some ⟨"e", 11⟩) (Either.right 1) 5
      = ({ poolAfter7at5 with
            inputs := poolAfter7at5.inputs ++ [⟨⟨"e", 11⟩, [⟨5, [⟨0, 1⟩]⟩]⟩] },
         some ⟨⟨poolAfter7at5.name, 11, 5⟩, some (1, (poolAfter7at5.inputs.length, 0, 0)), []⟩) :=
  process_fresh_id_creates_new_group poolAfter7at5 ⟨"e", 11⟩ 1 5
    (by decide) (by decide)

/-- Claim C2, counterexample: starting from a pool holding one input for
id 7 at complexity 10, a further candidate with the same id, the same
complexity and distinct data — and the same display, which the claim does
not exclude — is rejected outright (the display check scans all groups,
including the candidate's own), so the first further candidate is not
admitted and the bucket never grows. -/
theorem same_display_rejected_counterexample :
    (process poolP10 (some ⟨"e", 7⟩) (Either.right 1) 10).2 = none ∧
    (process poolP10 (some ⟨"e", 7⟩) (Either.right 1) 10).1 = poolP10 := by
  decide

/-- Claim C2, amended: provided each further candidate's display string
differs from every display recorded in the pool's groups, the first seven
further candidates are admitted into bucket `(0,0)`, which reaches the
cap of 8, and the ninth overall candidate is rejected with no delta
because the bucket is full. -/
theorem bucket_cap_scenario :
    (((runPool ("artifacts") (c2Calls.take 8)).inputs[0]?).map
        (fun g => g.inputs.map (fun b => b.inputs.length))) = some [8] ∧
    (process (runPool ("artifacts") (c2Calls.take 8)) (some ⟨"x", 7⟩)
        (Either.right 8) 10).2 = none ∧
    (process (runPool ("artifacts") (c2Calls.take 8)) (some ⟨"x", 7⟩)
        (Either.right 8) 10).1 = runPool ("artifacts") (c2Calls.take 8) := by
  decide

/-- Claim C5, counterexample: the mask `0x2F_FFFF` does not keep the low 22
bits of the pc: at `pc = 0x100000` (bit 20) the masked value is `0`, not
`pc mod 2^22`, and the pcs `0x100000` and `0` differ within their low 22
bits yet yield the same encoded pc field. -/
theorem instr_pc_field_not_low22_counterexample :
    instr_pc_field 0x100000 ≠ 0x100000 % 2 ^ 22 ∧
    instr_pc_field 0x100000 = instr_pc_field 0 ∧
    (0x100000 : Nat) % 2 ^ 22 ≠ 0 % 2 ^ 22 := by
  decide

/-- Claim C5, amended: the truncation `pc & 0x2F_FFFF` keeps exactly bits
0-19 and bit 21 of the pc (bit 20 is dropped): bit `i` of the masked
value equals bit `i` of `pc` when `i < 20` or `i = 21` and is zero
otherwise. Consequently pcs agreeing on those 21 bits share an encoded pc
field and pcs differing on them do not, while pcs differing only in bit
20 collide. -/
theorem instr_pc_field_testBit (pc i : Nat) :
    (instr_pc_field pc).testBit i
      = (pc.testBit i && (decide (i < 20) || decide (i = 21))) := by
  have hmask : Nat.testBit 0x2FFFFF i = (decide (i < 20) || decide (i = 21)) := by
    by_cases h : i < 22
    · interval_cases i <;> decide
    · have h1 : (0x2FFFFF : Nat) < 2 ^ i := by
        calc (0x2FFFFF : Nat) < 2 ^ 22 := by norm_num
          _ ≤ 2 ^ i := Nat.pow_le_pow_right (by norm_num) (by omega)
      rw [Nat.testBit_lt_two_pow h1]
      have h2 : ¬ i < 20 := by omega
      have h3 : i ≠ 21 := by omega
      simp [h2, h3]
  rw [instr_pc_field, Nat.testBit_and, hmask]

/-- Claim C6, counterexample: after `stop_recording` with a failure in the
process-wide slot, the local slot holds the failure but the process-wide
slot still holds it too — `self.error = TEST_FAILURE.clone()` copies, it
does not consume. -/
theorem stop_recording_clones_counterexample :
    (stop_recording ⟨none⟩ (some ⟨"e", 7⟩)).2 ≠ none ∧
    (stop_recording ⟨none⟩ (some ⟨"e", 7⟩)).1.error = some ⟨"e", 7⟩ := by
  decide

/-- Claim C6, amended: `stop_recording` copies the process-wide failure
slot into the sensor's local slot and leaves the process-wide slot
unchanged; the process-wide slot is only cleared by the next
`start_recording`. -/
theorem stop_recording_copies_global_slot (s : TestFailureSensor)
    (g : Option TestFailure) : stop_recording s g = (⟨g⟩, g) := rfl

/-- Claim C7, counterexample: `minify` on the (empty) artifact pool with
`target_len = 0` does not return an error result — its outcome is a
panic, not an `Err`. -/
theorem minify_no_error_return_counterexample :
    isErrorReturn (minify (emptyPool Nat ("artifacts")) ⟨none⟩ 0).1 = false := by
  decide

/-- Claim C7, amended: for every pool, sensor and `target_len`, `minify`
panics with the standard `todo!()` "not yet implemented" message instead
of returning an error result; the pool is left unchanged because the
panic occurs before any mutation. -/
theorem minify_crashes_unimplemented {T : Type} (p : ArtifactsPool T)
    (s : TestFailureSensor) (n : Nat) :
    minify p s n = (RunOutcome.crash ("not yet implemented"), p) := rfl

/-- Claim C9: at any group index still in range (as every index previously
returned by the pool is, groups never being removed),
`retrieve_after_processing` never panics and never returns an error: it
returns the live input exactly when the bucket and input position still
exist and the stored input's generation matches, and `none` otherwise. -/
theorem retrieve_after_processing_spec {T : Type} (tcGen : T → Nat)
    (p : ArtifactsPool T) (idx : PoolIndex) (generation : Nat)
    (h : idx.1 < p.inputs.length) :
    retrieve_after_processing tcGen p idx generation
      = RunOutcome.ok
          ((((p.inputs[idx.1]?).bind (fun g => g.inputs[idx.2.1]?)).bind
              (fun b => b.inputs[idx.2.2]?)).bind
            (fun input =>
              if tcGen input.data = generation then some input.data else none)) := by
  match hg : p.inputs[idx.1]? with
  | none =>
    rw [List.getElem?_eq_none_iff] at hg
    omega
  | some group =>
    match hb : (group.inputs[idx.2.1]?).bind (fun b => b.inputs[idx.2.2]?) with
    | none => simp [retrieve_after_processing, hg, hb]
    | some input =>
      by_cases hgen : tcGen input.data = generation <;>
        simp [retrieve_after_processing, hg, hb, hgen]

/-- Claim C9, witness: retrieving index `(0,0,0)` with matching
generation from the one-input pool returns the live input. -/
theorem retrieve_after_processing_spec_witness :
    retrieve_after_processing (fun n => n) poolP10 (0, 0, 0) 0
      = RunOutcome.ok (some 0) := by
  rw [retrieve_after_processing_spec (fun n => n) poolP10 (0, 0, 0) 0 (by decide)]
  decide

/-- Claim C10: `get_random_index` returns `None` exactly on a pool with no
error groups; on a non-empty pool it returns an index (for every pair of
rng draws) whenever every group's last bucket is non-empty; and that
precondition is real: after `mark_test_case_as_dead_end` removes the sole
input of a group's last bucket, `get_random_index` panics on the empty
sampling range. -/
theorem get_random_index_spec {T : Type} :
    (∀ (p : ArtifactsPool T) (r1 r2 : Nat),
      get_random_index p r1 r2 = RunOutcome.ok none ↔ p.inputs = []) ∧
    (∀ (p : ArtifactsPool T) (r1 r2 : Nat),
      (∀ g ∈ p.inputs, lastBucketNonempty g = true) → p.inputs ≠ [] →
      ∃ i, get_random_index p r1 r2 = RunOutcome.ok (some i)) ∧
    (get_random_index (mark_test_case_as_dead_end poolP10 (0, 0, 0)) 0 0
      = RunOutcome.crash ("empty range")) := by
  refine ⟨?_, ?_, by decide⟩
  · intro p r1 r2
    constructor
    · intro h
      by_contra hne
      have hlen : 0 < p.inputs.length := List.length_pos.mpr hne
      have hemp : p.inputs.isEmpty = false := by
        simpa [List.isEmpty_iff] using hne
      have hr : rng_usize r1 p.inputs.length = RunOutcome.ok (r1 % p.inputs.length) := by
        simp [rng_usize, Nat.pos_iff_ne_zero.mp hlen]
      rw [get_random_index, hemp] at h
      simp only [Bool.false_eq_true, if_false, hr] at h
      rcases hg : p.inputs[r1 % p.inputs.length]? with _ | g
      · rw [List.getElem?_eq_none_iff] at hg
        have := Nat.mod_lt r1 hlen
        omega
      · simp only [hg] at h
        rcases hb : g.inputs[g.inputs.length - 1]? with _ | b
        · simp [hb] at h
        · simp only [hb] at h
          rcases hr2 : rng_usize r2 b.inputs.length with m | v
          · simp [hr2] at h
          · simp [hr2] at h
    · intro h
      simp [get_random_index, h]
  · intro p r1 r2 hlast hne
    have hlen : 0 < p.inputs.length := List.length_pos.mpr hne
    have hemp : p.inputs.isEmpty = false := by
      simpa [List.isEmpty_iff] using hne
    have hr : rng_usize r1 p.inputs.length = RunOutcome.ok (r1 % p.inputs.length) := by
      simp [rng_usize, Nat.pos_iff_ne_zero.mp hlen]
    rw [get_random_index, hemp]
    simp only [Bool.false_eq_true, if_false, hr]
    rcases hg : p.inputs[r1 % p.inputs.length]? with _ | g
    · rw [List.getElem?_eq_none_iff] at hg
      have := Nat.mod_lt r1 hlen
      omega
    · have hgmem : g ∈ p.inputs := List.getElem?_mem hg
      have hgl := hlast g hgmem
      rcases hl : g.inputs.getLast? with _ | b
      · rw [lastBucketNonempty, hl] at hgl
        cases hgl
      · have hbne : b.inputs ≠ [] := by
          rw [lastBucketNonempty, hl] at hgl
          simpa [List.isEmpty_iff] using hgl
        have hb : g.inputs[g.inputs.length - 1]? = some b := by
          rw [← List.getLast?_eq_getElem?]
          exact hl
        have hr2 : rng_usize r2 b.inputs.length
            = RunOutcome.ok (r2 % b.inputs.length) := by
          simp [rng_usize, Nat.pos_iff_ne_zero.mp (List.length_pos.mpr hbne)]
        simp only [hg, hb, hr2]
        exact ⟨_, rfl⟩

/-- Claim C10, witness: on the one-input pool (whose single group's last
bucket is non-empty) `get_random_index` does return an index. -/
theorem get_random_index_spec_witness :
    ∃ i, get_random_index poolP10 0 0 = RunOutcome.ok (some i) :=
  (@get_random_index_spec Nat).2.1 poolP10 0 0 (by decide) (by decide)

/- ------------------------------------------------------------------ -/
/- Invariant machinery for the artifact pool                           -/
/- ------------------------------------------------------------------ -/

theorem minRat?_concat (l : List Rat) (c : Rat) :
    minRat? (l ++ [c])
      = some (match minRat? l with | none => c | some m => min m c) := by
  induction l with
  | nil => simp [minRat?]
  | cons x xs ih =>
    rcases h : minRat? xs with _ | m
    · simp [minRat?, List.append_eq, ih, h]
    · simp only [List.cons_append, minRat?, List.append_eq, ih, h]
      rw [min_assoc]

theorem admittedFor_concat (log : List (Nat × Rat)) (i : Nat) (c : Rat) (eid : Nat) :
    admittedFor (log ++ [(i, c)]) eid
      = admittedFor log eid ++ (if i = eid then [c] else []) := by
  by_cases h : i = eid
  · subst h
    simp [admittedFor, List.filter_append, List.filter]
  · have hb : (i == eid) = false := by simpa using h
    simp [admittedFor, List.filter_append, List.filter, hb, h]

theorem admittedFor_eq_nil (log : List (Nat × Rat)) (eid : Nat)
    (h : ∀ en ∈ log, en.1 ≠ eid) : admittedFor log eid = [] := by
  unfold admittedFor
  have hf : log.filter (fun e => e.1 == eid) = [] :=
    List.filter_eq_nil_iff.mpr (fun a ha => by simpa using h a ha)
  rw [hf]
  rfl

theorem classify_newError_spec {T : Type} {p : ArtifactsPool T}
    {error : TestFailure} {cplx : Rat}
    (h : classify p error cplx = some PositionOfNewInput.newError) :
    ∀ g ∈ p.inputs, g.error.id ≠ error.id := by
  intro g hg
  unfold classify at h
  rcases hpos : position (fun xs => xs.error.id == error.id) p.inputs with _ | li
  · have := (position_eq_none_iff _ _).mp hpos g hg
    simpa using this
  · exfalso
    simp only [hpos] at h
    rcases hgot : p.inputs[li]? with _ | list
    · simp [hgot] at h
    · simp only [hgot] at h
      rcases hl : list.inputs.getLast? with _ | lc
      · simp [hl] at h
      · simp only [hl] at h
        split_ifs at h <;> simp at h

theorem classify_newCplx_spec {T : Type} {p : ArtifactsPool T}
    {error : TestFailure} {cplx : Rat} {e : Nat}
    (h : classify p error cplx = some (PositionOfNewInput.existingErrorNewCplx e)) :
    ∃ list, p.inputs[e]? = some list ∧ list.error.id = error.id ∧
      ((∃ lc, list.inputs.getLast? = some lc ∧ lc.cplx > cplx) ∨ list.inputs = []) := by
  unfold classify at h
  rcases hpos : position (fun xs => xs.error.id == error.id) p.inputs with _ | li
  · simp [hpos] at h
  · simp only [hpos] at h
    obtain ⟨x, hx, hpx⟩ := position_some_spec _ _ _ hpos
    rcases hgot : p.inputs[li]? with _ | list
    · simp [hgot] at h
    · simp only [hgot] at h
      have hxl : x = list := by
        have := hx.symm.trans hgot
        injection this
      rw [hxl] at hpx
      rcases hl : list.inputs.getLast? with _ | lc
      · simp only [hl] at h
        injection h with h'
        injection h' with h''
        subst h''
        exact ⟨list, hgot, by simpa using hpx,
          Or.inr (List.getLast?_eq_none_iff.mp hl)⟩
      · simp only [hl] at h
        split_ifs at h with h1 h2 h3
        · injection h with h'
          injection h' with h''
          subst h''
          exact ⟨list, hgot, by simpa using hpx, Or.inl ⟨lc, hl, h1⟩⟩
        · simp at h

theorem classify_andCplx_spec {T : Type} {p : ArtifactsPool T}
    {error : TestFailure} {cplx : Rat} {e : Nat}
    (h : classify p error cplx = some (PositionOfNewInput.existingErrorAndCplx e)) :
    ∃ list lc, p.inputs[e]? = some list ∧ list.error.id = error.id ∧
      list.inputs.getLast? = some lc ∧ lc.cplx = cplx ∧
      lc.inputs.length < NBR_ARTIFACTS_PER_ERROR_AND_CPLX := by
  unfold classify at h
  rcases hpos : position (fun xs => xs.error.id == error.id) p.inputs with _ | li
  · simp [hpos] at h
  · simp only [hpos] at h
    obtain ⟨x, hx, hpx⟩ := position_some_spec _ _ _ hpos
    rcases hgot : p.inputs[li]? with _ | list
    · simp [hgot] at h
    · simp only [hgot] at h
      have hxl : x = list := by
        have := hx.symm.trans hgot
        injection this
      rw [hxl] at hpx
      rcases hl : list.inputs.getLast? with _ | lc
      · simp [hl] at h
      · simp only [hl] at h
        split_ifs at h with h1 h2 h3
        · simp at h
        · injection h with h'
          injection h' with h''
          subst h''
          exact ⟨list, lc, hgot, by simpa using hpx, hl, h2, h3.1⟩

theorem insertAt_newError_shape {T : Type} [Inhabited T] (p : ArtifactsPool T)
    (error : TestFailure) (ref : Either PoolIndex T) (cplx : Rat) :
    (insertAt p error ref cplx PositionOfNewInput.newError).1
        = { p with inputs :=
            p.inputs ++ [⟨error, [⟨cplx, [⟨0, insertData p ref⟩]⟩]⟩] }
      ∧ (insertAt p error ref cplx PositionOfNewInput.newError).2.isSome = true :=
  ⟨rfl, rfl⟩

theorem insertAt_newCplx_shape {T : Type} [Inhabited T] (p : ArtifactsPool T)
    (error : TestFailure) (ref : Either PoolIndex T) (cplx : Rat) (e : Nat)
    (g : ArftifactList T) (hg : p.inputs[e]? = some g) :
    (insertAt p error ref cplx (PositionOfNewInput.existingErrorNewCplx e)).1
        = { p with inputs :=
            p.inputs.set e ⟨g.error, g.inputs ++ [⟨cplx, [⟨0, insertData p ref⟩]⟩]⟩ }
      ∧ (insertAt p error ref cplx (PositionOfNewInput.existingErrorNewCplx e)).2.isSome
          = true := by
  constructor <;> simp only [insertAt, hg, Option.isSome_some]

theorem insertAt_andCplx_shape {T : Type} [Inhabited T] (p : ArtifactsPool T)
    (error : TestFailure) (ref : Either PoolIndex T) (cplx : Rat) (e : Nat)
    (g : ArftifactList T) (lastB : ArtifactListForError T)
    (hg : p.inputs[e]? = some g) (hl : g.inputs.getLast? = some lastB) :
    (insertAt p error ref cplx (PositionOfNewInput.existingErrorAndCplx e)).1
        = { p with inputs :=
            p.inputs.set e ⟨g.error,
              g.inputs.dropLast ++ [⟨lastB.cplx, lastB.inputs ++ [⟨0, insertData p ref⟩]⟩]⟩ }
      ∧ (insertAt p error ref cplx (PositionOfNewInput.existingErrorAndCplx e)).2.isSome
          = true := by
  constructor <;> simp only [insertAt, hg, hl, Option.isSome_some]

theorem groupInv_untouched {T : Type} (log : List (Nat × Rat)) (entry : Nat × Rat)
    (g : ArftifactList T) (hgi : GroupInv log g) (hne : g.error.id ≠ entry.1) :
    GroupInv (log ++ [entry]) g := by
  obtain ⟨h1, h2, h3, h4⟩ := hgi
  refine ⟨h1, h2, h3, ?_⟩
  rcases entry with ⟨i, c⟩
  rw [admittedFor_concat, if_neg (Ne.symm hne), List.append_nil]
  exact h4

theorem poolInv_set {T : Type} (p : ArtifactsPool T) (log : List (Nat × Rat))
    (e : Nat) (g g' : ArftifactList T) (entry : Nat × Rat)
    (hinv : PoolInv p log) (hg : p.inputs[e]? = some g)
    (hid : g'.error.id = g.error.id) (hentry : entry.1 = g.error.id)
    (hgi : GroupInv (log ++ [entry]) g') :
    PoolInv { p with inputs := p.inputs.set e g' } (log ++ [entry]) := by
  obtain ⟨hgrp, hlog, hids⟩ := hinv
  have he : e < p.inputs.length := by
    by_contra hcon
    rw [not_lt] at hcon
    rw [List.getElem?_eq_none hcon] at hg
    cases hg
  refine ⟨?_, ?_, ?_⟩
  · intro j gj hj
    by_cases hje : j = e
    · subst hje
      rw [List.getElem?_set_self he] at hj
      injection hj with hj
      subst hj
      exact hgi
    · rw [List.getElem?_set_ne (Ne.symm hje)] at hj
      refine groupInv_untouched log entry gj (hgrp j gj hj) ?_
      rw [hentry]
      exact hids j e gj g hj hg hje
  · intro en hen
    rcases List.mem_append.mp hen with hen | hen
    · obtain ⟨gj, hgjmem, hgjid⟩ := hlog en hen
      obtain ⟨j, hj⟩ := List.mem_iff_getElem?.mp hgjmem
      by_cases hje : j = e
      · subst hje
        have hgj : gj = g := by
          have := hj.symm.trans hg
          injection this
        subst hgj
        refine ⟨g', List.getElem?_mem (List.getElem?_set_self he), ?_⟩
        rw [hid]
        exact hgjid
      · exact ⟨gj, List.getElem?_mem
          (by rw [List.getElem?_set_ne (Ne.symm hje)]; exact hj), hgjid⟩
    · have hen' : en = entry := by simpa using hen
      subst hen'
      refine ⟨g', List.getElem?_mem (List.getElem?_set_self he), ?_⟩
      rw [hid]
      exact hentry.symm
  · intro i j gi gj hi hj hij
    by_cases hie : i = e <;> by_cases hje : j = e
    · exact absurd (hie.trans hje.symm) hij
    · subst hie
      rw [List.getElem?_set_self he] at hi
      injection hi with hi
      subst hi
      rw [List.getElem?_set_ne (Ne.symm hje)] at hj
      rw [hid]
      exact hids i j g gj hg hj (Ne.symm hje)
    · subst hje
      rw [List.getElem?_set_self he] at hj
      injection hj with hj
      subst hj
      rw [List.getElem?_set_ne (Ne.symm hie)] at hi
      rw [hid]
      exact hids i j gi g hi hg hie
    · rw [List.getElem?_set_ne (Ne.symm hie)] at hi
      rw [List.getElem?_set_ne (Ne.symm hje)] at hj
      exact hids i j gi gj hi hj hij

theorem poolInv_append {T : Type} (p : ArtifactsPool T) (log : List (Nat × Rat))
    (gNew : ArftifactList T) (entry : Nat × Rat)
    (hinv : PoolInv p log)
    (hfresh : ∀ gj ∈ p.inputs, gj.error.id ≠ gNew.error.id)
    (hentry : entry.1 = gNew.error.id)
    (hgi : GroupInv (log ++ [entry]) gNew) :
    PoolInv { p with inputs := p.inputs ++ [gNew] } (log ++ [entry]) := by
  obtain ⟨hgrp, hlog, hids⟩ := hinv
  refine ⟨?_, ?_, ?_⟩
  · intro j gj hj
    rcases lt_or_ge j p.inputs.length with hlt | hge
    · rw [List.getElem?_append_left hlt] at hj
      refine groupInv_untouched log entry gj (hgrp j gj hj) ?_
      rw [hentry]
      exact hfresh gj (List.getElem?_mem hj)
    · rw [List.getElem?_append_right hge] at hj
      rcases hj0 : j - p.inputs.length with _ | k
      · rw [hj0] at hj
        have hjg : gNew = gj := by simpa using hj
        subst hjg
        exact hgi
      · rw [hj0] at hj
        simp at hj
  · intro en hen
    rcases List.mem_append.mp hen with hen | hen
    · obtain ⟨gj, hgjmem, hgjid⟩ := hlog en hen
      exact ⟨gj, List.mem_append_left _ hgjmem, hgjid⟩
    · have hen' : en = entry := by simpa using hen
      subst hen'
      exact ⟨gNew, List.mem_append_right _ (by simp), hentry.symm⟩
  · intro i j gi gj hi hj hij
    rcases lt_or_ge i p.inputs.length with hi' | hi' <;>
      rcases lt_or_ge j p.inputs.length with hj' | hj'
    · rw [List.getElem?_append_left hi'] at hi
      rw [List.getElem?_append_left hj'] at hj
      exact hids i j gi gj hi hj hij
    · rw [List.getElem?_append_left hi'] at hi
      rw [List.getElem?_append_right hj'] at hj
      have hjg : gj = gNew := by
        rcases hj0 : j - p.inputs.length with _ | k
        · rw [hj0] at hj
          have := (by simpa using hj : gNew = gj)
          exact this.symm
        · rw [hj0] at hj
          simp at hj
      subst hjg
      exact hfresh gi (List.getElem?_mem hi)
    · rw [List.getElem?_append_right hi'] at hi
      rw [List.getElem?_append_left hj'] at hj
      have hig : gi = gNew := by
        rcases hi0 : i - p.inputs.length with _ | k
        · rw [hi0] at hi
          have := (by simpa using hi : gNew = gi)
          exact this.symm
        · rw [hi0] at hi
          simp at hi
      subst hig
      intro hh
      exact hfresh gj (List.getElem?_mem hj) hh.symm
    · exfalso
      have hi0 : i - p.inputs.length = 0 := by
        rcases hi0 : i - p.inputs.length with _ | k
        · rfl
        · rw [List.getElem?_append_right hi', hi0] at hi
          simp at hi
      have hj0 : j - p.inputs.length = 0 := by
        rcases hj0 : j - p.inputs.length with _ | k
        · rfl
        · rw [List.getElem?_append_right hj', hj0] at hj
          simp at hj
      omega

theorem groupInv_newGroup {T : Type} (log : List (Nat × Rat))
    (error : TestFailure) (cplx : Rat) (d : T)
    (hadm : admittedFor log error.id = []) :
    GroupInv (log ++ [(error.id, cplx)])
      (⟨error, [⟨cplx, [⟨0, d⟩]⟩]⟩ : ArftifactList T) := by
  refine ⟨by simp, ?_, ?_, ?_⟩
  · exact List.chain'_singleton _
  · intro b hb
    have hb' : b = ⟨cplx, [⟨0, d⟩]⟩ := by simpa using hb
    subst hb'
    simp [NBR_ARTIFACTS_PER_ERROR_AND_CPLX]
  · rw [admittedFor_concat, hadm, if_pos rfl]
    simp [bucketCplxs, minRat?]

theorem groupInv_newBucket {T : Type} (log : List (Nat × Rat))
    (g : ArftifactList T) (cplx : Rat) (d : T) (lc : ArtifactListForError T)
    (hgi : GroupInv log g) (hl : g.inputs.getLast? = some lc) (hlt : lc.cplx > cplx) :
    GroupInv (log ++ [(g.error.id, cplx)])
      (⟨g.error, g.inputs ++ [⟨cplx, [⟨0, d⟩]⟩]⟩ : ArftifactList T) := by
  obtain ⟨h1, h2, h3, h4⟩ := hgi
  refine ⟨by simp, ?_, ?_, ?_⟩
  · show List.Chain' (· > ·)
      ((g.inputs ++ [(⟨cplx, [⟨0, d⟩]⟩ : ArtifactListForError T)]).map (·.cplx))
    rw [List.map_append]
    rw [List.chain'_append]
    refine ⟨h2, List.chain'_singleton _, ?_⟩
    intro x hx y hy
    rw [List.getLast?_map] at hx
    rw [hl] at hx
    have hx' : lc.cplx = x := by simpa using hx
    have hy' : cplx = y := by simpa using hy
    rw [← hx', ← hy']
    exact hlt
  · intro b hb
    rcases List.mem_append.mp hb with hb | hb
    · exact h3 b hb
    · have hb' : b = ⟨cplx, [⟨0, d⟩]⟩ := by simpa using hb
      subst hb'
      simp [NBR_ARTIFACTS_PER_ERROR_AND_CPLX]
  · show (((g.inputs ++ [(⟨cplx, [⟨0, d⟩]⟩ : ArtifactListForError T)]).map (·.cplx)).getLast?
      = minRat? (admittedFor (log ++ [(g.error.id, cplx)]) g.error.id))
    rw [List.map_append]
    simp only [List.map_cons, List.map_nil]
    rw [List.getLast?_concat]
    rw [admittedFor_concat, if_pos rfl, minRat?_concat]
    have hmin : minRat? (admittedFor log g.error.id) = some lc.cplx := by
      rw [← h4]
      show (g.inputs.map (·.cplx)).getLast? = some lc.cplx
      rw [List.getLast?_map, hl]
      rfl
    rw [hmin]
    show some cplx = some (min lc.cplx cplx)
    rw [min_eq_right (le_of_lt hlt)]

theorem groupInv_pushLast {T : Type} (log : List (Nat × Rat))
    (g : ArftifactList T) (lastB : ArtifactListForError T) (d : T)
    (hgi : GroupInv log g) (hl : g.inputs.getLast? = some lastB)
    (hcap : lastB.inputs.length < NBR_ARTIFACTS_PER_ERROR_AND_CPLX) :
    GroupInv (log ++ [(g.error.id, lastB.cplx)])
      (⟨g.error, g.inputs.dropLast
        ++ [⟨lastB.cplx, lastB.inputs ++ [⟨0, d⟩]⟩]⟩ : ArftifactList T) := by
  obtain ⟨h1, h2, h3, h4⟩ := hgi
  have hsplit : g.inputs.dropLast ++ [lastB] = g.inputs :=
    List.dropLast_append_getLast? lastB (Option.mem_def.mpr hl)
  have hmapeq : (g.inputs.dropLast
      ++ [(⟨lastB.cplx, lastB.inputs ++ [⟨0, d⟩]⟩ : ArtifactListForError T)]).map (·.cplx)
      = g.inputs.map (·.cplx) := by
    conv_rhs => rw [← hsplit]
    simp [List.map_append]
  refine ⟨by simp, ?_, ?_, ?_⟩
  · show List.Chain' (· > ·) ((g.inputs.dropLast
      ++ [(⟨lastB.cplx, lastB.inputs ++ [⟨0, d⟩]⟩ : ArtifactListForError T)]).map (·.cplx))
    rw [hmapeq]
    exact h2
  · intro b hb
    rcases List.mem_append.mp hb with hb | hb
    · exact h3 b (List.dropLast_subset _ hb)
    · have hb' : b = ⟨lastB.cplx, lastB.inputs ++ [⟨0, d⟩]⟩ := by simpa using hb
      subst hb'
      simp only [List.length_append, List.length_cons, List.length_nil]
      unfold NBR_ARTIFACTS_PER_ERROR_AND_CPLX at hcap ⊢
      omega
  · show ((g.inputs.dropLast
      ++ [(⟨lastB.cplx, lastB.inputs ++ [⟨0, d⟩]⟩ : ArtifactListForError T)]).map (·.cplx)).getLast?
      = minRat? (admittedFor (log ++ [(g.error.id, lastB.cplx)]) g.error.id)
    rw [hmapeq]
    rw [admittedFor_concat, if_pos rfl, minRat?_concat]
    have hmin : minRat? (admittedFor log g.error.id) = some lastB.cplx := by
      rw [← h4]
      show (g.inputs.map (·.cplx)).getLast? = some lastB.cplx
      rw [List.getLast?_map, hl]
      rfl
    rw [hmin]
    show (g.inputs.map (·.cplx)).getLast? = some (min lastB.cplx lastB.cplx)
    rw [min_self, List.getLast?_map, hl]
    rfl

theorem deltaLog_of_emitted {T : Type} [Inhabited T] (p : ArtifactsPool T)
    (error : TestFailure) (ref : Either PoolIndex T) (cplx : Rat)
    (h : (process p (some error) ref cplx).2.isSome = true) :
    deltaLog p ⟨some error, ref, cplx⟩ = [(error.id, cplx)] := by
  rcases ho : (process p (some error) ref cplx).2 with _ | δ
  · rw [ho] at h
    cases h
  · simp only [deltaLog, ho]

theorem process_preserves_inv {T : Type} [Inhabited T] (p : ArtifactsPool T)
    (log : List (Nat × Rat)) (c : Call T) (hinv : PoolInv p log) :
    PoolInv (stepPool p c) (log ++ deltaLog p c) := by
  rcases c with ⟨error?, ref, cplx⟩
  rcases error? with _ | error
  · have hs : stepPool p ⟨none, ref, cplx⟩ = p := rfl
    have hd : deltaLog p ⟨none, ref, cplx⟩ = [] := rfl
    rw [hs, hd, List.append_nil]
    exact hinv
  · rcases hcl : classify p error cplx with _ | pos
    · have hs : stepPool p ⟨some error, ref, cplx⟩ = p := by
        simp [stepPool, process, hcl]
      have hd : deltaLog p ⟨some error, ref, cplx⟩ = [] := by
        simp [deltaLog, process, hcl]
      rw [hs, hd, List.append_nil]
      exact hinv
    · have hs : stepPool p ⟨some error, ref, cplx⟩ = (insertAt p error ref cplx pos).1 := by
        simp [stepPool, process, hcl]
      have hdelta : (process p (some error) ref cplx).2 = (insertAt p error ref cplx pos).2 := by
        simp [process, hcl]
      rcases pos with _ | e | e
      · have hfresh := classify_newError_spec hcl
        obtain ⟨hsh1, hsh2⟩ := insertAt_newError_shape p error ref cplx
        have hd : deltaLog p ⟨some error, ref, cplx⟩ = [(error.id, cplx)] :=
          deltaLog_of_emitted p error ref cplx (by rw [hdelta]; exact hsh2)
        have hadm : admittedFor log error.id = [] := by
          refine admittedFor_eq_nil log error.id ?_
          intro en hen hh
          obtain ⟨gj, hgjmem, hgjid⟩ := hinv.2.1 en hen
          exact hfresh gj hgjmem (hgjid.trans hh)
        rw [hs, hsh1, hd]
        exact poolInv_append p log _ (error.id, cplx) hinv
          (fun gj hgj => hfresh gj hgj) rfl
          (groupInv_newGroup log error cplx _ hadm)
      · obtain ⟨list, hget, hlid, hor⟩ := classify_newCplx_spec hcl
        have hgl := hinv.1 e list hget
        rcases hor with ⟨lc, hl, hlt⟩ | hnil
        · obtain ⟨hsh1, hsh2⟩ := insertAt_newCplx_shape p error ref cplx e list hget
          have hd : deltaLog p ⟨some error, ref, cplx⟩ = [(error.id, cplx)] :=
            deltaLog_of_emitted p error ref cplx (by rw [hdelta]; exact hsh2)
          rw [hs, hsh1, hd, ← hlid]
          exact poolInv_set p log e list _ (list.error.id, cplx) hinv hget rfl rfl
            (groupInv_newBucket log list cplx (insertData p ref) lc hgl hl hlt)
        · exact absurd hnil hgl.1
      · obtain ⟨list, lc, hget, hlid, hl, hceq, hcap⟩ := classify_andCplx_spec hcl
        have hgl := hinv.1 e list hget
        obtain ⟨hsh1, hsh2⟩ := insertAt_andCplx_shape p error ref cplx e list lc hget hl
        have hd : deltaLog p ⟨some error, ref, cplx⟩ = [(error.id, cplx)] :=
          deltaLog_of_emitted p error ref cplx (by rw [hdelta]; exact hsh2)
        rw [hs, hsh1, hd, ← hlid, ← hceq]
        exact poolInv_set p log e list _ (list.error.id, lc.cplx) hinv hget rfl rfl
          (groupInv_pushLast log list lc (insertData p ref) hgl hl hcap)

theorem poolInv_empty (T : Type) (name : String) : PoolInv (emptyPool T name) [] := by
  refine ⟨?_, ?_, ?_⟩
  · intro i g hg
    simp [emptyPool] at hg
  · intro e he
    cases he
  · intro i j gi gj hi hj hij
    simp [emptyPool] at hi

theorem foldl_preserves_inv {T : Type} [Inhabited T] :
    ∀ (calls : List (Call T)) (p : ArtifactsPool T) (log : List (Nat × Rat)),
    PoolInv p log →
    PoolInv (calls.foldl stepPool p) (log ++ admittedLog p calls) := by
  intro calls
  induction calls with
  | nil =>
    intro p log h
    simpa [admittedLog] using h
  | cons c cs ih =>
    intro p log h
    rw [List.foldl_cons]
    have h2 := ih (stepPool p c) (log ++ deltaLog p c) (process_preserves_inv p log c h)
    rw [List.append_assoc] at h2
    exact h2

theorem runPool_inv {T : Type} [Inhabited T] (name : String) (calls : List (Call T)) :
    PoolInv (runPool name calls) (admittedLog (emptyPool T name) calls) := by
  have h := foldl_preserves_inv calls (emptyPool T name) [] (poolInv_empty T name)
  rw [List.nil_append] at h
  exact h

/- ------------------------------------------------------------------ -/
/- Claims C3 and C4                                                    -/
/- ------------------------------------------------------------------ -/

/-- Claim C3: after every sequence of `process` calls starting from a new
artifact pool, within each error group the bucket complexities are
strictly decreasing from first to last, and the last bucket's complexity
equals the minimum over all complexities at which inputs were admitted
for that error id. -/
theorem bucket_cplxs_strictly_decreasing_and_min {T : Type} [Inhabited T]
    (name : String) (calls : List (Call T)) :
    ∀ g ∈ (runPool name calls).inputs,
      List.Chain' (· > ·) (bucketCplxs g) ∧
      (bucketCplxs g).getLast?
        = minRat? (admittedFor (admittedLog (emptyPool T name) calls) g.error.id) := by
  intro g hg
  obtain ⟨j, hj⟩ := List.mem_iff_getElem?.mp hg
  have h := (runPool_inv name calls).1 j g hj
  exact ⟨h.2.1, h.2.2.2⟩

/-- Claim C3, witness: after admitting id 7 at complexity 10 and then at
complexity 5, the group's bucket complexities are `[10, 5]`, strictly
decreasing, and the last equals the admitted minimum 5. -/
theorem bucket_cplxs_strictly_decreasing_and_min_witness :
    List.Chain' (· > ·) (bucketCplxs groupAfterC3) ∧
    (bucketCplxs groupAfterC3).getLast?
      = minRat? (admittedFor (admittedLog (emptyPool Nat ("artifacts")) c3Calls)
          groupAfterC3.error.id) :=
  bucket_cplxs_strictly_decreasing_and_min ("artifacts") c3Calls groupAfterC3 (by decide)

/-- Claim C4: after every sequence of `process` calls starting from a new
artifact pool, every (error, complexity) bucket holds at most
`NBR_ARTIFACTS_PER_ERROR_AND_CPLX = 8` inputs. -/
theorem bucket_cap_invariant {T : Type} [Inhabited T]
    (name : String) (calls : List (Call T)) :
    ∀ g ∈ (runPool name calls).inputs, ∀ b ∈ g.inputs,
      b.inputs.length ≤ NBR_ARTIFACTS_PER_ERROR_AND_CPLX := by
  intro g hg b hb
  obtain ⟨j, hj⟩ := List.mem_iff_getElem?.mp hg
  exact ((runPool_inv name calls).1 j g hj).2.2.1 b hb

/-- Claim C4, witness: the cap holds for the concrete bucket at complexity
10 reached by `c3Calls`. -/
theorem bucket_cap_invariant_witness :
    ((⟨10, [⟨0, 0⟩]⟩ : ArtifactListForError Nat)).inputs.length
      ≤ NBR_ARTIFACTS_PER_ERROR_AND_CPLX :=
  bucket_cap_invariant ("artifacts") c3Calls groupAfterC3 (by decide)
    ⟨10, [⟨0, 0⟩]⟩ (by decide)

end Fuzzcheck
